import Mathlib

/-!
Shallow embedding of the Polymarket whale-watcher bot
(`main.py`, `state_manager.py`, `notifier.py`, `config.py`).

Python dicts with string keys are modelled as association lists that
preserve insertion order (Python 3.7+ semantics); Python `set` objects
are modelled as lists with membership up to duplication; timestamps
(`time.time()`) are integers; monetary values and scores are rationals.
Delivery and analysis collaborators are modelled as oracles indexed by
the scheduler-loop iteration number.
-/

/-- Constant from config.py: `WHALE_THRESHOLD = float(os.getenv("WHALE_THRESHOLD", "10000"))`
(default value, no environment override modelled). -/
def WHALE_THRESHOLD : ℚ := 10000

/-- Constant from config.py: `MAX_AI_CALLS_PER_DAY = 13`. -/
def MAX_AI_CALLS_PER_DAY : Nat := 13

/-- Constant from config.py: `MIN_SECONDS_BETWEEN_AI_ALERTS = 30` (burst mode). -/
def MIN_SECONDS_BETWEEN_AI_ALERTS : Nat := 30

/-- Python dict assignment `d[k] = v`: replaces the value at an existing
key in place, otherwise appends the new binding at the end. -/
def dictSet {β : Type} : List (String × β) → String → β → List (String × β)
  | [], k, v => [(k, v)]
  | (k', v') :: rest, k, v =>
      if k' = k then (k, v) :: rest else (k', v') :: dictSet rest k v

/-- Python `d.get(k, default)`: value at the first matching key, or the
default. -/
def dictGet {β : Type} : List (String × β) → String → β → β
  | [], _, d => d
  | (k', v) :: rest, k, d => if k' = k then v else dictGet rest k d

/-- The `state["ai_usage"]` record: `{count, date, last_sent_ts, categories}`. -/
structure AIUsage where
  count : Nat
  date : String
  last_sent_ts : Int
  categories : List (String × Nat)
  deriving DecidableEq

/-- The persisted bot state after `load_state` migrations: keys
`trades`, `insights`, `smart_positions`, `ai_usage` all present. -/
structure BotState where
  trades : List String
  insights : List (String × Int)
  smart_positions : List String
  ai_usage : AIUsage
  deriving DecidableEq

/-- Function `state_manager.cleanup_state`: resets the daily budget when the
calendar date changed, caps `trades` to the last 5000 entries and
`smart_positions` to the last 1000 entries, and drops `insights`
entries older than 24 hours.  `today` is `time.strftime("%Y-%m-%d")`
and `now` is `time.time()` at the moment of the call. -/
def cleanup_state (today : String) (now : Int) (st : BotState) : BotState :=
  let au :=
    if st.ai_usage.date ≠ today then
      { st.ai_usage with count := 0, date := today, categories := [] }
    else st.ai_usage
  let trades :=
    if st.trades.length > 5000 then st.trades.drop (st.trades.length - 5000)
    else st.trades
  let smart :=
    if st.smart_positions.length > 1000 then
      st.smart_positions.drop (st.smart_positions.length - 1000)
    else st.smart_positions
  let insights := st.insights.filter (fun kv => now - kv.2 < 86400)
  { trades := trades, insights := insights, smart_positions := smart,
    ai_usage := au }

/-- A raw `ai_usage` dict as it may appear in the JSON file: any key
may be absent. -/
structure RawAIUsage where
  count : Option Nat
  date : Option String
  last_sent_ts : Option Int
  categories : Option (List (String × Nat))
  deriving DecidableEq

/-- A raw state dict as it may appear in the JSON file (or as
`load_state` returns it): any top-level key may be absent. -/
structure RawState where
  trades : Option (List String)
  insights : Option (List (String × Int))
  ai_usage : Option RawAIUsage
  smart_positions : Option (List String)
  deriving DecidableEq

/-- The three situations `load_state` distinguishes: the state file
does not exist, reading/parsing it raises, or it parses to a dict. -/
inductive LoadSource where
  | absent
  | corrupt
  | parsed (d : RawState)
  deriving DecidableEq

/-- Function `state_manager.load_state`: `today` is `time.strftime("%Y-%m-%d")`.
The absent-file branch returns `{"trades": [], "insights": {}}` with no
other keys; the exception branch returns the full default; the parsed
branch applies the key-by-key migrations. -/
def load_state (today : String) : LoadSource → RawState
  | .absent => ⟨some [], some [], none, none⟩
  | .corrupt =>
      ⟨some [], some [], some ⟨some 0, some today, some 0, some []⟩, some []⟩
  | .parsed d =>
      let au : RawAIUsage :=
        match d.ai_usage with
        | none => ⟨some 0, some today, some 0, some []⟩
        | some u => { u with categories := some (u.categories.getD []) }
      ⟨some (d.trades.getD []), some (d.insights.getD []), some au,
       some (d.smart_positions.getD [])⟩

/-- Line 289 of main.py reads `state["ai_usage"]["count"]` directly on
the value `load_state` returned; the read succeeds only when both keys
are present. -/
def mainCountRead (s : RawState) : Option Nat :=
  s.ai_usage.bind (fun u => u.count)

/-- A raw trade as the whale check uses it (`main.py` lines 76-116);
fields only used for message formatting are omitted. -/
structure Trade where
  price : ℚ
  size : ℚ
  matchId : Option String
  tid : Option String
  timestamp : Int
  deriving DecidableEq

/-- Python `a or b` on an optional string: `None` and `""` are falsy. -/
def pyOrStr (a : Option String) (b : String) : String :=
  match a with
  | none => b
  | some s => if s = "" then b else s

/-- The id fallback chain matchId, then id, then the composed
market-timestamp-size string (Python `or`, main.py line 83). -/
def tradeId (marketId : String) (t : Trade) : String :=
  pyOrStr t.matchId
    (pyOrStr t.tid (marketId ++ "-" ++ toString t.timestamp ++ "-" ++ toString t.size))

/-- Result of running the whale check on one trade: whether a
notification was attempted, and the dedup set afterwards. -/
structure WhaleResult where
  attempted : Bool
  notified : List String
  deriving DecidableEq

/-- The per-trade whale check of `monitor_markets` (`main.py` lines
76-116): alert when `price * size >= WHALE_THRESHOLD` and the trade id
is not in the dedup set; the id is added only when `notifier.send_message`
returns `True` (`deliver`). -/
def whaleCheck (deliver : Bool) (notified : List String) (marketId : String)
    (t : Trade) : WhaleResult :=
  let value := t.price * t.size
  if WHALE_THRESHOLD ≤ value then
    let id := tradeId marketId t
    if id ∈ notified then ⟨false, notified⟩
    else if deliver then ⟨true, id :: notified⟩
    else ⟨true, notified⟩
  else ⟨false, notified⟩

/-- An insight candidate as enqueued by `monitor_markets` (`main.py`
lines 64-73); the `analysis` payload is only used in message text and
is omitted. -/
structure Candidate where
  score : ℚ
  event_title : String
  event_slug : String
  event_category : String
  market_question : String
  timestamp : Int
  deriving DecidableEq

/-- The diversity-adjusted score `score / (1 + (usage * 50))`
(main.py line 210). -/
def adjScore (score : ℚ) (usage : Nat) : ℚ :=
  score / (1 + (usage : ℚ) * 50)

/-- The scoring pass of `process_scheduler` (`main.py` lines 204-211):
pair every queued candidate with its diversity-adjusted score, reading
the per-category usage from `ai_usage["categories"]` with default 0. -/
def scoreCands (cats : List (String × Nat)) (q : List Candidate) :
    List (ℚ × Candidate) :=
  q.map (fun c => (adjScore c.score (dictGet cats c.event_category 0), c))

/-- Insert into a descending-sorted list, after all entries with a key
greater than or equal to the new one (stability). -/
def insertDesc (p : ℚ × Candidate) : List (ℚ × Candidate) → List (ℚ × Candidate)
  | [] => [p]
  | q :: rest => if q.1 < p.1 then p :: q :: rest else q :: insertDesc p rest

/-- The sort `scored_candidates.sort(key=lambda x: x[0], reverse=True)`
(main.py line 213): stable sort, descending by adjusted score. -/
def sortDesc (l : List (ℚ × Candidate)) : List (ℚ × Candidate) :=
  l.foldl (fun acc p => insertDesc p acc) []

/-- The selection scan of `process_scheduler` (`main.py` lines 219-225):
walk the sorted list, `continue` past any candidate whose event slug has
an `insights` timestamp within the last 21600 seconds, return the first
eligible one. -/
def pickBest (insights : List (String × Int)) (now : Int) :
    List (ℚ × Candidate) → Option (ℚ × Candidate)
  | [] => none
  | (s, c) :: rest =>
      if now - dictGet insights c.event_slug 0 < 21600 then
        pickBest insights now rest
      else some (s, c)

/-- Model of `insight_candidates.remove(best)` (main.py line 232): delete
the first occurrence equal to the given element. -/
def removeFirst : List Candidate → Candidate → List Candidate
  | [], _ => []
  | c :: rest, b => if c = b then rest else c :: removeFirst rest b

/-- Outcome of the try-block of one scheduler iteration: the message was
delivered (`send_message` returned `True`), the message was not
delivered (`send_message` returned `False`), or an exception was raised
during analysis or delivery. -/
inductive SendOutcome where
  | delivered
  | notDelivered
  | exn
  deriving DecidableEq

/-- Why the drain loop stopped. `fuelOut` is an artefact of the fuelled
model and is proved unreachable for sufficient fuel. -/
inductive ExitReason where
  | budget
  | interval
  | emptyQueue
  | noEligible
  | exn
  | fuelOut
  deriving DecidableEq

/-- What one iteration of the `while True` drain loop does: exit with a
reason, or fall through to the next iteration with updated state and
queue. -/
inductive StepResult where
  | exit (r : ExitReason) (st : BotState) (q : List Candidate)
  | cont (st : BotState) (q : List Candidate)
  deriving DecidableEq

/-- The state update of `main.py` lines 262-268, run when
`notifier.send_message` returns `True`: increment `ai_usage["count"]`,
stamp `last_sent_ts` and the cooldown entry for the event slug with a
fresh `time.time()` (`tsend i`), and bump the category usage counter. -/
def applyDelivery (tsend : Nat → Int) (i : Nat) (best : Candidate)
    (st : BotState) : BotState :=
  let cats := st.ai_usage.categories
  let cat := best.event_category
  { st with
    ai_usage := { st.ai_usage with
      count := st.ai_usage.count + 1
      last_sent_ts := tsend i
      categories := dictSet cats cat (dictGet cats cat 0 + 1) }
    insights := dictSet st.insights best.event_slug (tsend i) }

/-- One iteration of the drain loop body (`main.py` lines 183-277):
budget check, interval check, empty-queue check, scoring, sorted
cooldown scan, removal of the chosen candidate, then the try-block whose
outcome `oracle i` decides between the delivered update, the
not-delivered fall-through, and the exception `break`. -/
def drainStep (oracle : Nat → SendOutcome) (tnow tsend : Nat → Int) (i : Nat)
    (st : BotState) (q : List Candidate) : StepResult :=
  let now := tnow i
  if MAX_AI_CALLS_PER_DAY ≤ st.ai_usage.count then .exit .budget st q
  else if 60 ≤ MIN_SECONDS_BETWEEN_AI_ALERTS ∧
      now - st.ai_usage.last_sent_ts < (MIN_SECONDS_BETWEEN_AI_ALERTS : Int) then
    .exit .interval st q
  else
    match q with
    | [] => .exit .emptyQueue st q
    | _ :: _ =>
      match pickBest st.insights now (sortDesc (scoreCands st.ai_usage.categories q)) with
      | none => .exit .noEligible st q
      | some (_, best) =>
          let q' := if best ∈ q then removeFirst q best else q
          match oracle i with
          | .exn => .exit .exn st q'
          | .notDelivered => .cont st q'
          | .delivered => .cont (applyDelivery tsend i best st) q'

/-- Result of running the drain loop to completion: final state, final
queue (before any pruning), exit reason, the iteration index at exit
(equal to the number of completed non-exiting iterations when started at
index 0), and the value of the loop-local variable `now` at exit. -/
structure DrainResult where
  state : BotState
  queue : List Candidate
  reason : ExitReason
  iters : Nat
  exitNow : Int
  deriving DecidableEq

/-- The `while True` drain loop of `process_scheduler`, fuelled; fuel
strictly larger than the queue length is proved sufficient. -/
def drainLoop (oracle : Nat → SendOutcome) (tnow tsend : Nat → Int) :
    Nat → Nat → BotState → List Candidate → DrainResult
  | 0, i, st, q => ⟨st, q, .fuelOut, i, tnow i⟩
  | fuel + 1, i, st, q =>
      match drainStep oracle tnow tsend i st q with
      | .exit r st' q' => ⟨st', q', r, i, tnow i⟩
      | .cont st' q' => drainLoop oracle tnow tsend fuel (i + 1) st' q'

/-- The post-loop pruning filter, keeping candidates younger than 3600
seconds (main.py line 281). -/
def pruneQueue (now : Int) (q : List Candidate) : List Candidate :=
  q.filter (fun c => now - c.timestamp < 3600)

/-- Function `process_scheduler` (main.py lines 176-281): run the drain loop;
the trailing candidate-pruning statement after the loop is reached only
when the loop exits via `break` (the exception path) — every `return`
inside the loop leaves the function without pruning. -/
def process_scheduler (oracle : Nat → SendOutcome) (tnow tsend : Nat → Int)
    (st : BotState) (q : List Candidate) : BotState × List Candidate :=
  let r := drainLoop oracle tnow tsend (q.length + 1) 0 st q
  match r.reason with
  | .exn => (r.state, pruneQueue r.exitNow r.queue)
  | _ => (r.state, r.queue)

/-- Fixture: the politics candidate of spec Scenario B (raw score 1000). -/
def candPolitics : Candidate := ⟨1000, "P", "p", "politics", "qp", 0⟩

/-- Fixture: the tech candidate of spec Scenario B (raw score 600). -/
def candTech : Candidate := ⟨600, "T", "t", "tech", "qt", 0⟩

/-- Fixture: a candidate created at time 99000, within the one-hour
window at time 100000. -/
def candFresh : Candidate := ⟨600, "F", "f", "tech", "qf", 99000⟩

/-- Fixture: a candidate created at time 0, stale by more than one hour
at time 100000. -/
def candStale : Candidate := ⟨50, "S", "s", "tech", "qs", 0⟩

/-- Fixture: a freshly defaulted state (budget count 0). -/
def stateFresh : BotState := ⟨[], [], [], ⟨0, "2026-10-12", 0, []⟩⟩

/-- Fixture: a state whose daily budget is exhausted (count 13). -/
def stateBudgetFull : BotState := ⟨[], [], [], ⟨13, "2026-10-12", 0, []⟩⟩

/-- Fixture: 5001 pairwise-distinct older trade ids (strings of repeated
a-characters, length encoding the index). -/
def oldTradeIds : List String :=
  (List.range 5001).map (fun n => String.mk (List.replicate (n + 1) 'a'))

/-- Fixture: a stored trades list in which the most recently added id
"new" was enumerated first.  The store at main.py lines 32/112/119
rebuilds `state["trades"]` as `list(set(...))` every tick, and Python
specifies only the membership of that enumeration, not its order
(string hashing is salted per process), so this ordering is an
admissible stored list. -/
def newestFirstTrades : List String := "new" :: oldTradeIds

/-- Fixture: a state holding `newestFirstTrades` (5002 ids, over the
5000 cap) on the current date. -/
def stOrderLost : BotState :=
  ⟨newestFirstTrades, [], [], ⟨0, "2026-10-12", 0, []⟩⟩

/-- Admissible results of the `list(set(old) | {newId})` round trip of
`monitor_markets` (main.py lines 32, 112, 119): any duplicate-free
enumeration of exactly the old ids plus the new one, in any order. -/
def isSetEnumeration (old : List String) (newId : String)
    (order : List String) : Prop :=
  order.Nodup ∧ (∀ x ∈ order, x = newId ∨ x ∈ old) ∧ newId ∈ order ∧
    ∀ x ∈ old, x ∈ order

/-! ## Supporting lemmas -/

theorem mem_insertDesc (a p : ℚ × Candidate) (l : List (ℚ × Candidate)) :
    a ∈ insertDesc p l ↔ a = p ∨ a ∈ l := by
  induction l with
  | nil => simp [insertDesc]
  | cons q rest ih =>
      simp only [insertDesc]
      split
      · simp [List.mem_cons]
      · simp only [List.mem_cons, ih]
        tauto

theorem mem_sortDesc_foldl (l : List (ℚ × Candidate)) :
    ∀ (acc : List (ℚ × Candidate)) (a : ℚ × Candidate),
      a ∈ List.foldl (fun acc p => insertDesc p acc) acc l ↔ a ∈ acc ∨ a ∈ l := by
  induction l with
  | nil => simp
  | cons x rest ih =>
      intro acc a
      simp only [List.foldl_cons, ih, mem_insertDesc, List.mem_cons]
      tauto

theorem mem_sortDesc (a : ℚ × Candidate) (l : List (ℚ × Candidate)) :
    a ∈ sortDesc l ↔ a ∈ l := by
  simp [sortDesc, mem_sortDesc_foldl]

theorem mem_of_mem_scoreCands (s : ℚ) (c : Candidate) (cats : List (String × Nat))
    (q : List Candidate) (h : (s, c) ∈ scoreCands cats q) : c ∈ q := by
  simp only [scoreCands, List.mem_map] at h
  obtain ⟨a, ha, heq⟩ := h
  cases heq
  exact ha

theorem pickBest_split (ins : List (String × Int)) (now : Int)
    (l : List (ℚ × Candidate)) (p : ℚ × Candidate)
    (h : pickBest ins now l = some p) :
    ∃ l1 l2, l = l1 ++ p :: l2 ∧
      (∀ q ∈ l1, now - dictGet ins q.2.event_slug 0 < 21600) ∧
      ¬ (now - dictGet ins p.2.event_slug 0 < 21600) := by
  induction l with
  | nil => simp [pickBest] at h
  | cons x rest ih =>
      obtain ⟨s, c⟩ := x
      simp only [pickBest] at h
      split at h
      · obtain ⟨l1, l2, hl, hcool, hp⟩ := ih h
        refine ⟨(s, c) :: l1, l2, by simp [hl], ?_, hp⟩
        intro q hq
        rcases List.mem_cons.mp hq with hq | hq
        · cases hq
          assumption
        · exact hcool q hq
      · cases h
        exact ⟨[], rest, rfl, by simp, by assumption⟩

theorem pickBest_mem (ins : List (String × Int)) (now : Int)
    (l : List (ℚ × Candidate)) (p : ℚ × Candidate)
    (h : pickBest ins now l = some p) : p ∈ l := by
  obtain ⟨l1, l2, hl, -, -⟩ := pickBest_split ins now l p h
  simp [hl]

theorem pickBest_none_iff (ins : List (String × Int)) (now : Int)
    (l : List (ℚ × Candidate)) :
    pickBest ins now l = none ↔
      ∀ p ∈ l, now - dictGet ins p.2.event_slug 0 < 21600 := by
  induction l with
  | nil => simp [pickBest]
  | cons x rest ih =>
      obtain ⟨s, c⟩ := x
      simp only [pickBest]
      split
      · simp only [ih, List.mem_cons]
        constructor
        · intro h p hp
          rcases hp with hp | hp
          · cases hp
            assumption
          · exact h p hp
        · intro h p hp
          exact h p (Or.inr hp)
      · simp only [List.mem_cons]
        constructor
        · intro h
          cases h
        · intro h
          exact absurd (h (s, c) (Or.inl rfl)) (by assumption)

theorem length_removeFirst_of_mem (b : Candidate) (l : List Candidate)
    (h : b ∈ l) : (removeFirst l b).length + 1 = l.length := by
  induction l with
  | nil => cases h
  | cons x rest ih =>
      simp only [removeFirst]
      split
      · simp
      · rename_i hne
        rcases List.mem_cons.mp h with hb | hb
        · exact absurd hb.symm hne
        · simp [ih hb]

theorem drainStep_exit_state (o : Nat → SendOutcome) (tn ts : Nat → Int) (i : Nat)
    (st : BotState) (q : List Candidate) (r : ExitReason) (st' : BotState)
    (q' : List Candidate) (h : drainStep o tn ts i st q = .exit r st' q') :
    st' = st ∧ r ≠ .fuelOut := by
  simp only [drainStep] at h
  split at h
  · cases h; exact ⟨rfl, by simp⟩
  · split at h
    · cases h; exact ⟨rfl, by simp⟩
    · split at h
      · cases h; exact ⟨rfl, by simp⟩
      · split at h
        · cases h; exact ⟨rfl, by simp⟩
        · split at h
          · cases h; exact ⟨rfl, by simp⟩
          · cases h
          · cases h

theorem drainStep_cont_parts (o : Nat → SendOutcome) (tn ts : Nat → Int) (i : Nat)
    (st : BotState) (q : List Candidate) (st' : BotState) (q' : List Candidate)
    (h : drainStep o tn ts i st q = .cont st' q') :
    st.ai_usage.count < MAX_AI_CALLS_PER_DAY ∧
    (∃ s best, pickBest st.insights (tn i)
        (sortDesc (scoreCands st.ai_usage.categories q)) = some (s, best) ∧
      best ∈ q ∧ q' = removeFirst q best ∧
      ((o i = .notDelivered ∧ st' = st) ∨
       (o i = .delivered ∧ st' = applyDelivery ts i best st))) := by
  simp only [drainStep] at h
  split at h
  · cases h
  · split at h
    · cases h
    · split at h
      · cases h
      · rename_i x xs
        split at h
        · cases h
        · rename_i s best hpick
          have hbest : best ∈ x :: xs := mem_of_mem_scoreCands s best _ _
            ((mem_sortDesc _ _).mp (pickBest_mem _ _ _ _ hpick))
          rw [if_pos hbest] at h
          split at h
          · cases h
          · rename_i horacle
            cases h
            exact ⟨by omega, s, best, hpick, hbest, rfl, Or.inl ⟨horacle, rfl⟩⟩
          · rename_i horacle
            cases h
            exact ⟨by omega, s, best, hpick, hbest, rfl, Or.inr ⟨horacle, rfl⟩⟩

theorem drainLoop_count_le (o : Nat → SendOutcome) (tn ts : Nat → Int) :
    ∀ (fuel i : Nat) (st : BotState) (q : List Candidate),
      st.ai_usage.count ≤ MAX_AI_CALLS_PER_DAY →
      (drainLoop o tn ts fuel i st q).state.ai_usage.count ≤ MAX_AI_CALLS_PER_DAY ∧
      st.ai_usage.count ≤ (drainLoop o tn ts fuel i st q).state.ai_usage.count := by
  intro fuel
  induction fuel with
  | zero =>
      intro i st q h
      exact ⟨h, le_refl _⟩
  | succ fuel ih =>
      intro i st q h
      simp only [drainLoop]
      cases hstep : drainStep o tn ts i st q with
      | exit r st' q' =>
          obtain ⟨hst, -⟩ := drainStep_exit_state o tn ts i st q r st' q' hstep
          subst hst
          exact ⟨h, le_refl _⟩
      | cont st' q' =>
          obtain ⟨hlt, s, best, -, -, -, hcase⟩ :=
            drainStep_cont_parts o tn ts i st q st' q' hstep
          have hcount : st.ai_usage.count ≤ st'.ai_usage.count ∧
              st'.ai_usage.count ≤ st.ai_usage.count + 1 := by
            rcases hcase with ⟨-, rfl⟩ | ⟨-, rfl⟩
            · exact ⟨le_refl _, Nat.le_succ _⟩
            · simp [applyDelivery]
          have h' : st'.ai_usage.count ≤ MAX_AI_CALLS_PER_DAY := by omega
          obtain ⟨h1, h2⟩ := ih (i + 1) st' q' h'
          exact ⟨h1, le_trans hcount.1 h2⟩

theorem drainLoop_no_fuelOut (o : Nat → SendOutcome) (tn ts : Nat → Int) :
    ∀ (fuel i : Nat) (st : BotState) (q : List Candidate),
      q.length < fuel →
      (drainLoop o tn ts fuel i st q).reason ≠ .fuelOut ∧
      (drainLoop o tn ts fuel i st q).iters ≤ i + q.length := by
  intro fuel
  induction fuel with
  | zero =>
      intro i st q h
      omega
  | succ fuel ih =>
      intro i st q h
      simp only [drainLoop]
      cases hstep : drainStep o tn ts i st q with
      | exit r st' q' =>
          obtain ⟨-, hr⟩ := drainStep_exit_state o tn ts i st q r st' q' hstep
          dsimp only
          exact ⟨hr, by omega⟩
      | cont st' q' =>
          obtain ⟨-, s, best, -, hbest, hq', -⟩ :=
            drainStep_cont_parts o tn ts i st q st' q' hstep
          subst hq'
          dsimp only
          have hlen := length_removeFirst_of_mem best q hbest
          obtain ⟨h1, h2⟩ := ih (i + 1) st' (removeFirst q best) (by omega)
          exact ⟨h1, by omega⟩

theorem drainLoop_iters_exn (o : Nat → SendOutcome) (tn ts : Nat → Int) :
    ∀ (fuel i : Nat) (st : BotState) (q : List Candidate),
      o i = .exn → (drainLoop o tn ts fuel i st q).iters = i := by
  intro fuel
  cases fuel with
  | zero => intro i st q _; rfl
  | succ fuel =>
      intro i st q h
      simp only [drainLoop]
      cases hstep : drainStep o tn ts i st q with
      | exit r st' q' => rfl
      | cont st' q' =>
          obtain ⟨-, s, best, -, -, -, hcase⟩ :=
            drainStep_cont_parts o tn ts i st q st' q' hstep
          rcases hcase with ⟨ho, -⟩ | ⟨ho, -⟩ <;> rw [h] at ho <;> cases ho

theorem drainStep_exit_exn_oracle (o : Nat → SendOutcome) (tn ts : Nat → Int)
    (i : Nat) (st : BotState) (q : List Candidate) (st' : BotState)
    (q' : List Candidate) (h : drainStep o tn ts i st q = .exit .exn st' q') :
    o i = .exn := by
  simp only [drainStep] at h
  split at h
  · cases h
  · split at h
    · cases h
    · split at h
      · cases h
      · split at h
        · cases h
        · rename_i s best hpick
          have hbest : _ ∈ _ := mem_of_mem_scoreCands s best _ _
            ((mem_sortDesc _ _).mp (pickBest_mem _ _ _ _ hpick))
          rw [if_pos hbest] at h
          split at h
          · assumption
          · cases h
          · cases h

/-! ## Claim theorems -/

/-- C1: within one scheduler call, the daily budget counter stays at or
below `MAX_AI_CALLS_PER_DAY` whenever it starts there, and it is
monotonically non-decreasing: each drain-loop iteration re-reads the
count and exits before selecting a candidate once the budget is
reached, and increments it by at most one per confirmed delivery. -/
theorem scheduler_budget_invariant (o : Nat → SendOutcome) (tnow tsend : Nat → Int)
    (st : BotState) (q : List Candidate)
    (h : st.ai_usage.count ≤ MAX_AI_CALLS_PER_DAY) :
    (process_scheduler o tnow tsend st q).1.ai_usage.count ≤ MAX_AI_CALLS_PER_DAY ∧
    st.ai_usage.count ≤ (process_scheduler o tnow tsend st q).1.ai_usage.count := by
  have hl := drainLoop_count_le o tnow tsend (q.length + 1) 0 st q h
  simp only [process_scheduler]
  split <;> exact hl

theorem scheduler_budget_invariant_witness :
    (process_scheduler (fun _ => SendOutcome.delivered) (fun _ => 100000)
        (fun _ => 100001) stateFresh [candPolitics]).1.ai_usage.count ≤
      MAX_AI_CALLS_PER_DAY ∧
    stateFresh.ai_usage.count ≤
      (process_scheduler (fun _ => SendOutcome.delivered) (fun _ => 100000)
        (fun _ => 100001) stateFresh [candPolitics]).1.ai_usage.count :=
  scheduler_budget_invariant _ _ _ stateFresh [candPolitics] (by decide)

/-- C10: the drain loop terminates for every finite queue and any
collaborator behavior: with fuel one more than the queue length it
never runs out of fuel, and the number of completed (non-exiting)
iterations is bounded by the initial queue length. -/
theorem drain_loop_terminates (o : Nat → SendOutcome) (tnow tsend : Nat → Int)
    (st : BotState) (q : List Candidate) :
    (drainLoop o tnow tsend (q.length + 1) 0 st q).reason ≠ .fuelOut ∧
    (drainLoop o tnow tsend (q.length + 1) 0 st q).iters ≤ q.length := by
  have h := drainLoop_no_fuelOut o tnow tsend (q.length + 1) 0 st q (by omega)
  simpa using h

/-- C2 counterexample: with two queued candidates and a delivery
collaborator that reports failure (`send_message` returns `False`) every
time, the drain loop does NOT stop after the first failed candidate: it
runs two full iterations, consuming both candidates, and exits only on
the empty queue. -/
theorem scheduler_continues_after_failed_delivery :
    (drainLoop (fun _ => SendOutcome.notDelivered) (fun _ => 100000)
        (fun _ => 100000) 3 0 stateFresh [candPolitics, candTech]).iters = 2 ∧
    (drainLoop (fun _ => SendOutcome.notDelivered) (fun _ => 100000)
        (fun _ => 100000) 3 0 stateFresh [candPolitics, candTech]).queue = [] ∧
    (drainLoop (fun _ => SendOutcome.notDelivered) (fun _ => 100000)
        (fun _ => 100000) 3 0 stateFresh [candPolitics, candTech]).reason =
      .emptyQueue := by
  refine ⟨?_, ?_, ?_⟩ <;>
    simp [drainLoop, drainStep, pickBest, sortDesc, scoreCands, insertDesc,
      adjScore, candPolitics, candTech, stateFresh, MAX_AI_CALLS_PER_DAY,
      MIN_SECONDS_BETWEEN_AI_ALERTS, dictGet, removeFirst]

/-- C2 amended: the drain loop stops entirely for the tick exactly when
the try-block raises (analysis or delivery exception); a delivery that
merely reports failure (`send_message` returns `False`) does not stop
the loop — the failed candidate is consumed, the state (budget, cooldown)
is left untouched, and the loop continues with further candidates. -/
theorem scheduler_stops_only_on_exception (o : Nat → SendOutcome)
    (tnow tsend : Nat → Int) :
    (∀ fuel i st q, o i = SendOutcome.exn →
      (drainLoop o tnow tsend fuel i st q).iters = i) ∧
    (∀ i st q st' q', drainStep o tnow tsend i st q = .cont st' q' →
      o i = SendOutcome.notDelivered → st' = st) ∧
    (∀ i st q st' q', drainStep o tnow tsend i st q = .exit .exn st' q' →
      o i = SendOutcome.exn) := by
  refine ⟨drainLoop_iters_exn o tnow tsend, ?_, ?_⟩
  · intro i st q st' q' h ho
    obtain ⟨-, s, best, -, -, -, hcase⟩ :=
      drainStep_cont_parts o tnow tsend i st q st' q' h
    rcases hcase with ⟨-, hst⟩ | ⟨hd, -⟩
    · exact hst
    · rw [ho] at hd
      cases hd
  · intro i st q st' q' h
    exact drainStep_exit_exn_oracle o tnow tsend i st q st' q' h

theorem scheduler_stops_only_on_exception_witness :
    (drainLoop (fun _ => SendOutcome.exn) (fun _ => 100000) (fun _ => 100000)
        5 0 stateFresh [candPolitics]).iters = 0 :=
  (scheduler_stops_only_on_exception (fun _ => SendOutcome.exn)
    (fun _ => 100000) (fun _ => 100000)).1 5 0 stateFresh [candPolitics] rfl

/-- C3: the selection scan never returns a candidate whose event slug is
inside the 21600-second cooldown window: a selected candidate is
preceded in the sorted list only by cooled-down entries and is itself
outside the window; the scan returns none exactly when every entry is
inside the window; and a continuing drain-loop iteration consumes
exactly the selected candidate (skipped ones stay in the queue). -/
theorem scheduler_cooldown_skip (ins : List (String × Int)) (now : Int)
    (l : List (ℚ × Candidate)) :
    (∀ p, pickBest ins now l = some p →
      ∃ l1 l2, l = l1 ++ p :: l2 ∧
        (∀ r ∈ l1, now - dictGet ins r.2.event_slug 0 < 21600) ∧
        ¬ (now - dictGet ins p.2.event_slug 0 < 21600)) ∧
    (pickBest ins now l = none ↔
      ∀ p ∈ l, now - dictGet ins p.2.event_slug 0 < 21600) ∧
    (∀ (o : Nat → SendOutcome) (tn ts : Nat → Int) i st q st' q',
      drainStep o tn ts i st q = .cont st' q' →
      ∃ s best, pickBest st.insights (tn i)
          (sortDesc (scoreCands st.ai_usage.categories q)) = some (s, best) ∧
        q' = removeFirst q best) := by
  refine ⟨fun p hp => pickBest_split ins now l p hp, pickBest_none_iff ins now l, ?_⟩
  intro o tn ts i st q st' q' h
  obtain ⟨-, s, best, hpick, -, hq', -⟩ := drainStep_cont_parts o tn ts i st q st' q' h
  exact ⟨s, best, hpick, hq'⟩

theorem scheduler_cooldown_skip_witness :
    pickBest [("p", 95000)] 100000 [((5 : ℚ), candPolitics)] = none :=
  (scheduler_cooldown_skip [("p", 95000)] 100000 [((5 : ℚ), candPolitics)]).2.1.mpr
    (by
      intro p hp
      rcases List.mem_singleton.mp hp with rfl
      simp [candPolitics, dictGet])

/-- C4: on a missing state file, `load_state` returns a dict holding
only `trades` and `insights` — `ai_usage` and `smart_positions` are
absent, so the `state["ai_usage"]["count"]` read in `main` fails on a
fresh start; only the corruption branch returns the full default. -/
theorem load_state_absent_incomplete (today : String) :
    (load_state today .absent).ai_usage = none ∧
    (load_state today .absent).smart_positions = none ∧
    mainCountRead (load_state today .absent) = none ∧
    load_state today .corrupt =
      ⟨some [], some [], some ⟨some 0, some today, some 0, some []⟩, some []⟩ :=
  ⟨rfl, rfl, rfl, rfl⟩

/-- C5 counterexample: with the daily budget exhausted the drain loop
exits via `return`, skipping the post-loop pruning: a candidate more
than 3600 seconds old is still in the queue when `process_scheduler`
returns. -/
theorem scheduler_no_prune_on_budget_exit :
    process_scheduler (fun _ => SendOutcome.notDelivered) (fun _ => 100000)
        (fun _ => 100000) stateBudgetFull [candStale] =
      (stateBudgetFull, [candStale]) ∧
    ¬ (100000 - candStale.timestamp < 3600) := by
  constructor
  · simp [process_scheduler, drainLoop, drainStep, stateBudgetFull,
      MAX_AI_CALLS_PER_DAY, MIN_SECONDS_BETWEEN_AI_ALERTS]
  · simp [candStale]

/-- C5 amended: the stale-candidate pruning runs only when the drain
loop exits through the exception `break`; in that case every candidate
remaining after `process_scheduler` is younger than 3600 seconds
(relative to the loop-local `now` at exit), while the early `return`
exits (budget, interval, empty queue, no eligible candidate) leave the
queue unpruned. -/
theorem scheduler_prune_only_on_break (o : Nat → SendOutcome)
    (tnow tsend : Nat → Int) (st : BotState) (q : List Candidate) :
    ((drainLoop o tnow tsend (q.length + 1) 0 st q).reason = .exn →
      ∀ c ∈ (process_scheduler o tnow tsend st q).2,
        (drainLoop o tnow tsend (q.length + 1) 0 st q).exitNow - c.timestamp < 3600) ∧
    ((drainLoop o tnow tsend (q.length + 1) 0 st q).reason ≠ .exn →
      (process_scheduler o tnow tsend st q).2 =
        (drainLoop o tnow tsend (q.length + 1) 0 st q).queue) := by
  have hsplit : (process_scheduler o tnow tsend st q).2 =
      if (drainLoop o tnow tsend (q.length + 1) 0 st q).reason = .exn then
        pruneQueue (drainLoop o tnow tsend (q.length + 1) 0 st q).exitNow
          (drainLoop o tnow tsend (q.length + 1) 0 st q).queue
      else (drainLoop o tnow tsend (q.length + 1) 0 st q).queue := by
    simp only [process_scheduler]
    cases hr : (drainLoop o tnow tsend (q.length + 1) 0 st q).reason <;> simp
  constructor
  · intro h c hc
    rw [hsplit, if_pos h] at hc
    simp only [pruneQueue, List.mem_filter, decide_eq_true_eq] at hc
    exact hc.2
  · intro h
    rw [hsplit, if_neg h]

theorem scheduler_prune_only_on_break_witness :
    ∀ c ∈ (process_scheduler (fun _ => SendOutcome.exn) (fun _ => 100000)
        (fun _ => 100000) stateFresh [candPolitics, candFresh]).2,
      (drainLoop (fun _ => SendOutcome.exn) (fun _ => 100000) (fun _ => 100000)
        ([candPolitics, candFresh].length + 1) 0 stateFresh
        [candPolitics, candFresh]).exitNow - c.timestamp < 3600 :=
  (scheduler_prune_only_on_break (fun _ => SendOutcome.exn) (fun _ => 100000)
    (fun _ => 100000) stateFresh [candPolitics, candFresh]).1
    (by
      simp [drainLoop, drainStep, pickBest, sortDesc, scoreCands, insertDesc,
        adjScore, candPolitics, candFresh, stateFresh, MAX_AI_CALLS_PER_DAY,
        MIN_SECONDS_BETWEEN_AI_ALERTS, dictGet, removeFirst])

/-- C6 amended: after every cleanup pass the notified-trade list holds
at most 5000 entries and the notified-position list at most 1000, and
each is a suffix of its input list: the truncation drops entries from
the front of the stored list.  Since the stored lists are rebuilt from
unordered Python sets each tick, front position does not track
insertion age, so this is not an oldest-first eviction (see the C6
counterexample). -/
theorem cleanup_retention_caps (today : String) (now : Int) (st : BotState) :
    (cleanup_state today now st).trades.length ≤ 5000 ∧
    (cleanup_state today now st).smart_positions.length ≤ 1000 ∧
    (cleanup_state today now st).trades <:+ st.trades ∧
    (cleanup_state today now st).smart_positions <:+ st.smart_positions := by
  simp only [cleanup_state]
  refine ⟨?_, ?_, ?_, ?_⟩ <;> split <;>
    simp_all [List.length_drop, List.drop_suffix, List.suffix_refl] <;> omega

/-- C7: when the calendar date changed, cleanup resets the budget count
to 0 and the category-usage map to empty (stamping the new date), while
the cooldown (insights) map is filtered purely by age — entries survive
exactly when younger than 86400 seconds, regardless of the date
change. -/
theorem cleanup_day_rollover (today : String) (now : Int) (st : BotState)
    (h : st.ai_usage.date ≠ today) :
    (cleanup_state today now st).ai_usage.count = 0 ∧
    (cleanup_state today now st).ai_usage.categories = [] ∧
    (cleanup_state today now st).ai_usage.date = today ∧
    (cleanup_state today now st).ai_usage.last_sent_ts = st.ai_usage.last_sent_ts ∧
    (cleanup_state today now st).insights =
      st.insights.filter (fun kv => now - kv.2 < 86400) := by
  simp [cleanup_state, h]

theorem cleanup_day_rollover_witness :
    (cleanup_state "2026-10-12" 100000
        ⟨[], [("a", 90000), ("b", 1)], [], ⟨7, "2026-10-11", 5, [("tech", 2)]⟩⟩).ai_usage.count = 0 ∧
    (cleanup_state "2026-10-12" 100000
        ⟨[], [("a", 90000), ("b", 1)], [], ⟨7, "2026-10-11", 5, [("tech", 2)]⟩⟩).ai_usage.categories = [] ∧
    (cleanup_state "2026-10-12" 100000
        ⟨[], [("a", 90000), ("b", 1)], [], ⟨7, "2026-10-11", 5, [("tech", 2)]⟩⟩).ai_usage.date = "2026-10-12" ∧
    (cleanup_state "2026-10-12" 100000
        ⟨[], [("a", 90000), ("b", 1)], [], ⟨7, "2026-10-11", 5, [("tech", 2)]⟩⟩).ai_usage.last_sent_ts =
      (⟨[], [("a", 90000), ("b", 1)], [], ⟨7, "2026-10-11", 5, [("tech", 2)]⟩⟩ : BotState).ai_usage.last_sent_ts ∧
    (cleanup_state "2026-10-12" 100000
        ⟨[], [("a", 90000), ("b", 1)], [], ⟨7, "2026-10-11", 5, [("tech", 2)]⟩⟩).insights =
      ([("a", 90000), ("b", 1)] : List (String × Int)).filter (fun kv => 100000 - kv.2 < 86400) :=
  cleanup_day_rollover "2026-10-12" 100000
    ⟨[], [("a", 90000), ("b", 1)], [], ⟨7, "2026-10-11", 5, [("tech", 2)]⟩⟩ (by decide)

/-- C8: the diversity-adjusted score `raw / (1 + usage * 50)` is
strictly decreasing in the category usage for fixed positive raw score;
in spec Scenario B (raw 1000 at usage 2 versus raw 600 at usage 0) the
usage-0 candidate is selected despite its lower raw score. -/
theorem diversity_penalty_strict (s : ℚ) (u1 u2 : Nat) (hs : 0 < s)
    (hu : u1 < u2) :
    adjScore s u2 < adjScore s u1 ∧
    adjScore 1000 2 = 1000 / 101 ∧
    adjScore 600 0 = 600 ∧
    pickBest [] 100000 (sortDesc (scoreCands [("politics", 2)]
        [candPolitics, candTech])) = some (600, candTech) := by
  refine ⟨?_, by norm_num [adjScore], by norm_num [adjScore], ?_⟩
  · have h1 : (0 : ℚ) < 1 + (u1 : ℚ) * 50 := by positivity
    have h2 : (1 : ℚ) + (u1 : ℚ) * 50 < 1 + (u2 : ℚ) * 50 := by
      have hc : (u1 : ℚ) < u2 := by exact_mod_cast hu
      nlinarith
    exact div_lt_div_of_pos_left hs h1 h2
  · simp [pickBest, sortDesc, scoreCands, insertDesc, adjScore, candPolitics,
      candTech, dictGet]
    norm_num [pickBest, dictGet, candTech]

theorem diversity_penalty_strict_witness :
    adjScore 1 1 < adjScore 1 0 ∧
    adjScore 1000 2 = 1000 / 101 ∧
    adjScore 600 0 = 600 ∧
    pickBest [] 100000 (sortDesc (scoreCands [("politics", 2)]
        [candPolitics, candTech])) = some (600, candTech) :=
  diversity_penalty_strict 1 0 1 (by norm_num) (by norm_num)

/-- C9: the whale check attempts a notification exactly when the trade
value `price * size` reaches `WHALE_THRESHOLD` and the trade id is not
already in the dedup set (independent of budget or cooldown state, which
it never reads), and the id is added to the dedup set exactly when the
alert was attempted and delivery was confirmed. -/
theorem whale_alert_characterization (deliver : Bool) (notified : List String)
    (marketId : String) (t : Trade) :
    ((whaleCheck deliver notified marketId t).attempted = true ↔
      (WHALE_THRESHOLD ≤ t.price * t.size ∧ tradeId marketId t ∉ notified)) ∧
    ((whaleCheck deliver notified marketId t).notified =
      if ((whaleCheck deliver notified marketId t).attempted && deliver) = true
      then tradeId marketId t :: notified else notified) := by
  simp only [whaleCheck]
  split_ifs <;> simp_all

/-- C6 counterexample: an admissible stored trades list (a
duplicate-free enumeration of 5001 old ids plus the freshly added id
"new", with "new" enumerated first, as the unordered
`list(set(...))` store of main.py permits) on which the cleanup pass
keeps 5000 entries but evicts the most recently added id "new" while
retaining older ids — the eviction is not oldest-first and does not
preserve the most recently added ids. -/
theorem cleanup_evicts_most_recent_id :
    isSetEnumeration oldTradeIds "new" newestFirstTrades ∧
    "new" ∈ stOrderLost.trades ∧
    (cleanup_state "2026-10-12" 100000 stOrderLost).trades.length = 5000 ∧
    "new" ∉ (cleanup_state "2026-10-12" 100000 stOrderLost).trades := by
  have hnew : "new" ∉ oldTradeIds := by
    simp only [oldTradeIds, List.mem_map]
    rintro ⟨n, -, heq⟩
    have hdata : List.replicate (n + 1) 'a' = ("new" : String).data :=
      congrArg String.data heq
    have hn : 'n' ∈ List.replicate (n + 1) 'a' := by
      rw [hdata]
      decide
    have := List.eq_of_mem_replicate hn
    cases this
  have hinj : Function.Injective
      (fun n : Nat => String.mk (List.replicate (n + 1) 'a')) := by
    intro m n h
    have hlen := congrArg (fun s : String => s.data.length) h
    simp only [List.length_replicate] at hlen
    omega
  have hlen : newestFirstTrades.length = 5002 := by
    simp only [newestFirstTrades, oldTradeIds, List.length_cons,
      List.length_map, List.length_range]
  have hcl : ∀ (t : String) (n : Int) (s : BotState),
      (cleanup_state t n s).trades =
        if s.trades.length > 5000 then s.trades.drop (s.trades.length - 5000)
        else s.trades := by
    intro t n s
    simp only [cleanup_state]
  have hst : stOrderLost.trades = newestFirstTrades := rfl
  have htrades : (cleanup_state "2026-10-12" 100000 stOrderLost).trades =
      newestFirstTrades.drop 2 := by
    rw [hcl, hst, hlen]
    norm_num
  refine ⟨⟨List.Nodup.cons hnew ((List.nodup_range 5001).map hinj), ?_, ?_, ?_⟩, ?_, ?_, ?_⟩
  · intro x hx
    simpa [newestFirstTrades] using hx
  · simp [newestFirstTrades]
  · intro x hx
    simp [newestFirstTrades, hx]
  · exact List.mem_cons_self _ _
  · rw [htrades, List.length_drop, hlen]
  · rw [htrades]
    intro hmem
    have hnf : newestFirstTrades = "new" :: oldTradeIds := rfl
    rw [hnf, List.drop_succ_cons] at hmem
    exact hnew (List.drop_subset 1 oldTradeIds hmem)
